import Mathlib

/-!
Verification of the knowledge-retrieval / answer-composition pipeline of the
legalbot_realestate_ru repository, as a shallow embedding in Lean 4.

The embedding translates, from the Python sources:
  * `src/services/answer_service.py` — `AnswerService.generate_answer`,
    `AnswerService._strip_markdown`, `AnswerService._ensure_required_sections`;
  * `src/rag.py` — `KnowledgeBase.query` and `build_context_snippets`;
  * `src/models/knowledge.py` — the field validators and `validate_records`.

Python strings are modelled as `List Char` (wrapped in `String` at the API
boundary), Python `int` as `Int`, and the floating-point similarity scores
returned by the third-party fuzzy scorer as `ℚ`.  The third-party
`rapidfuzz.process.extract` is modelled from its documented contract (best
matches sorted by score descending, ties kept in the order of the choices),
parametrised by the scorer function; everything else is translated directly
from the repository's Python code.
-/

namespace LegalBot

/-- Python's `\s` / `str.strip` whitespace class, restricted to the ASCII
fragment (space, tab, newline, carriage return, vertical tab, form feed);
the sources never exercise non-ASCII whitespace. -/
def isPySpace (c : Char) : Bool :=
  c = ' ' || c = '\t' || c = '\n' || c = '\r' || c = '\x0b' || c = '\x0c'

/-- Python `str.strip()` on character lists: drop whitespace from both ends. -/
def pyStripL (l : List Char) : List Char :=
  ((l.dropWhile isPySpace).reverse.dropWhile isPySpace).reverse

/-- Python `str.strip()` on strings. -/
def pyStrip (s : String) : String :=
  ⟨pyStripL s.data⟩

theorem takeWhile_dropWhile_length (p : Char → Bool) (l : List Char) :
    (l.takeWhile p).length + (l.dropWhile p).length = l.length := by
  induction l with
  | nil => simp
  | cons c t ih =>
      by_cases h : p c
      · simp [List.takeWhile_cons, List.dropWhile_cons, h]
        omega
      · simp [List.takeWhile_cons, List.dropWhile_cons, h]

/-- `re.sub(r"\s+", " ", s)` from `src/models/knowledge.py` `_normalize_text`:
replace every maximal whitespace run by a single space. -/
def collapseWs : List Char → List Char
  | [] => []
  | c :: rest =>
      if isPySpace c then ' ' :: collapseWs (rest.dropWhile isPySpace)
      else c :: collapseWs rest
termination_by l => l.length
decreasing_by
  · have h := takeWhile_dropWhile_length isPySpace rest
    simp
    omega
  · simp

/-- `_normalize_text` from `src/models/knowledge.py`:
`re.sub(r"\s+", " ", value).strip()`. -/
def normalizeText (s : String) : String :=
  pyStrip ⟨collapseWs s.data⟩

/-- Python `sep.join(parts)`. -/
def joinSep (sep : String) : List String → String
  | [] => ""
  | [p] => p
  | p :: rest => p ++ sep ++ joinSep sep rest

/-!
### `AnswerService._strip_markdown` (`src/services/answer_service.py`)

    text = re.sub(r"\*\*(.*?)\*\*", r"\1", text)
    text = re.sub(r"#+\s*", "", text)
    text = re.sub(r"_([^_]+)_", r"\1", text)

Each `re.sub` pass scans left to right, and at each position either applies
the leftmost match (continuing after its end) or emits one character.
-/

/-- For the bold pass: given the text following an opening `**`, find the
lazily-nearest closing `**`.  Returns the group (the characters between the
markers) and the rest after the closing marker; `.` does not match a newline,
so the search aborts at `'\n'`. -/
def findBoldClose : List Char → Option (List Char × List Char)
  | '*' :: '*' :: rest => some ([], rest)
  | '\n' :: _ => none
  | c :: rest => (findBoldClose rest).map (fun p => (c :: p.1, p.2))
  | [] => none

theorem findBoldClose_len :
    ∀ (l g r : List Char), findBoldClose l = some (g, r) →
      g.length + r.length + 2 = l.length := by
  intro l
  induction l using findBoldClose.induct with
  | case1 rest =>
      intro g r h
      simp [findBoldClose] at h
      simp [← h.1, ← h.2]
  | case2 tail =>
      intro g r h
      simp [findBoldClose] at h
  | case3 c rest h1 h2 ih =>
      intro g r h
      rw [findBoldClose] at h
      case x_1 => exact h1
      case x_2 => exact h2
      obtain ⟨p, hp, heq⟩ := Option.map_eq_some'.mp h
      have := ih p.1 p.2 (by simpa using hp)
      cases heq
      simp
      omega
  | case4 =>
      intro g r h
      simp [findBoldClose] at h

/-- `re.sub(r"\*\*(.*?)\*\*", r"\1", text)`: on `**`, replace up to the
nearest closing `**` by the group; if no closing marker exists before a
newline or the end, emit one `*` and rescan from the next character. -/
def boldSub : List Char → List Char
  | '*' :: '*' :: rest =>
      if h : (findBoldClose rest).isSome then
        ((findBoldClose rest).get h).1 ++ boldSub ((findBoldClose rest).get h).2
      else '*' :: boldSub ('*' :: rest)
  | c :: rest => c :: boldSub rest
  | [] => []
termination_by l => l.length
decreasing_by
  · obtain ⟨p, hp⟩ := Option.isSome_iff_exists.mp h
    have hlen := findBoldClose_len rest p.1 p.2 (by rw [hp])
    simp [hp]
    omega
  · simp
  · simp

/-- `re.sub(r"#+\s*", "", text)`: on `#`, drop the whole run of `#`
characters and any following whitespace (anywhere in the text — the pattern
has no line anchor). -/
def hashSub : List Char → List Char
  | '#' :: rest => hashSub ((rest.dropWhile (· = '#')).dropWhile isPySpace)
  | c :: rest => c :: hashSub rest
  | [] => []
termination_by l => l.length
decreasing_by
  · have h1 := takeWhile_dropWhile_length (· = '#') rest
    have h2 := takeWhile_dropWhile_length isPySpace (rest.dropWhile (· = '#'))
    simp
    omega
  · simp

/-- `re.sub(r"_([^_]+)_", r"\1", text)`: on `_`, if a nonempty run of
non-underscore characters is followed by another `_`, replace the pair by
the run; otherwise emit the `_` and continue. -/
def underscoreSub : List Char → List Char
  | '_' :: rest =>
      if h1 : (rest.takeWhile (fun c => c != '_')).isEmpty then
        '_' :: underscoreSub rest
      else if h2 : (rest.dropWhile (fun c => c != '_')).isEmpty then
        '_' :: underscoreSub rest
      else
        rest.takeWhile (fun c => c != '_') ++
          underscoreSub (rest.dropWhile (fun c => c != '_')).tail
  | c :: rest => c :: underscoreSub rest
  | [] => []
termination_by l => l.length
decreasing_by
  · simp
  · simp
  · have hlen := takeWhile_dropWhile_length (fun c => c != '_') rest
    simp
    omega
  · simp

/-- `AnswerService._strip_markdown`: the three `re.sub` passes in order. -/
def strip_markdown (s : String) : String :=
  ⟨underscoreSub (hashSub (boldSub s.data))⟩

theorem hashSub_no_hash : ∀ l : List Char, '#' ∉ hashSub l := by
  intro l
  induction l using hashSub.induct with
  | case1 rest ih => rw [hashSub]; exact ih
  | case2 c rest hne ih =>
      rw [hashSub]
      case x_1 => exact hne
      intro hmem
      rcases List.mem_cons.mp hmem with hc | hc
      · exact hne hc.symm
      · exact ih hc
  | case3 => simp [hashSub]

theorem mem_underscoreSub : ∀ (l : List Char) (c : Char),
    c ∈ underscoreSub l → c ∈ l := by
  intro l
  induction l using underscoreSub.induct with
  | case1 rest h1 ih =>
      intro c hc
      rw [underscoreSub, dif_pos h1] at hc
      rcases List.mem_cons.mp hc with hc | hc
      · simp [hc]
      · exact List.mem_cons_of_mem _ (ih c hc)
  | case2 rest h1 h2 ih =>
      intro c hc
      rw [underscoreSub, dif_neg h1, dif_pos h2] at hc
      rcases List.mem_cons.mp hc with hc | hc
      · simp [hc]
      · exact List.mem_cons_of_mem _ (ih c hc)
  | case3 rest h1 h2 ih =>
      intro c hc
      rw [underscoreSub, dif_neg h1, dif_neg h2] at hc
      rcases List.mem_append.mp hc with hc | hc
      · exact List.mem_cons_of_mem _ (List.takeWhile_sublist _ |>.mem hc)
      · have : c ∈ (rest.dropWhile (fun c => c != '_')).tail := ih c hc
        have : c ∈ rest.dropWhile (fun c => c != '_') :=
          (List.tail_sublist _).mem this
        exact List.mem_cons_of_mem _ ((List.dropWhile_sublist _).mem this)
  | case4 c rest hne ih =>
      intro d hd
      rw [underscoreSub] at hd
      case x_1 => exact hne
      rcases List.mem_cons.mp hd with hd | hd
      · simp [hd]
      · exact List.mem_cons_of_mem _ (ih d hd)
  | case5 =>
      intro c hc
      simp [underscoreSub] at hc

/-!
### `AnswerService._ensure_required_sections` (`src/services/answer_service.py`)

A regex `^(?P<title>T1|...|T6)\s*:\s*` with `IGNORECASE | MULTILINE` is run
over the stripped text with `finditer`; the text is then reassembled as
preamble plus `"<canonical title>:\n<content>"` parts (empty contents are
dropped), joined by blank lines, and stripped.
-/

/-- The six section titles, in the order of the regex alternation. -/
def sectionTitles : List String :=
  ["Суть ситуации", "Что нужно уточнить", "Рекомендации",
   "Возможные пути решения", "Правовые основания",
   "Предупреждения и ограничения"]

/-- Python `str.lower()`, restricted to the alphabets the section titles
use: ASCII `A`–`Z` and Cyrillic `А`–`Я` map down by 32 code points,
`Ё` maps to `ё`. -/
def pyLowerChar (c : Char) : Char :=
  if 'A' ≤ c ∧ c ≤ 'Z' then Char.ofNat (c.toNat + 32)
  else if 'А' ≤ c ∧ c ≤ 'Я' then Char.ofNat (c.toNat + 32)
  else if c = 'Ё' then 'ё'
  else c

/-- Case-insensitive prefix match of a literal pattern against the text
(`re.IGNORECASE` on the title alternation). -/
def ciPrefixMatch : List Char → List Char → Bool
  | [], _ => true
  | _ :: _, [] => false
  | p :: ps, t :: ts => (pyLowerChar p = pyLowerChar t) && ciPrefixMatch ps ts

/-- First title of the alternation matching at this position.  Returns the
raw matched text (original case) and the rest.  No section title is a
prefix of another, so at most one alternative can match and the regex
engine's ordered alternation is equivalent to this first-match search. -/
def firstTitleMatch : List (List Char) → List Char → Option (List Char × List Char)
  | [], _ => none
  | t :: ts, l =>
      if ciPrefixMatch t l then some (l.take t.length, l.drop t.length)
      else firstTitleMatch ts l

/-- The `\s*:\s*` tail of the section regex: greedy whitespace, a colon,
greedy whitespace.  Returns the rest and whether the last consumed
character was a newline (which is what `^` looks at for the next match,
since `\s` also consumes newlines). -/
def afterTitleSep (l : List Char) : Option (List Char × Bool) :=
  let l1 := l.dropWhile isPySpace
  if l1.head? = some ':' then
    some (l1.tail.dropWhile isPySpace,
      ((l1.tail.takeWhile isPySpace).getLast? == some '\n'))
  else none

/-- One attempt of the whole section regex at the current position:
title alternation followed by `\s*:\s*`.  Returns the raw title, the rest
after the match, and whether the next position is at a line start. -/
def matchSectionAt (l : List Char) : Option (List Char × List Char × Bool) :=
  (firstTitleMatch (sectionTitles.map String.data) l).bind
    (fun pr => (afterTitleSep pr.2).map (fun rb => (pr.1, rb.1, rb.2)))

theorem ciPrefixMatch_length : ∀ (p t : List Char),
    ciPrefixMatch p t = true → p.length ≤ t.length := by
  intro p
  induction p with
  | nil => simp
  | cons c ps ih =>
      intro t h
      cases t with
      | nil => simp [ciPrefixMatch] at h
      | cons d ts =>
          simp only [ciPrefixMatch, Bool.and_eq_true] at h
          have := ih ts h.2
          simp
          omega

theorem firstTitleMatch_len : ∀ (ts : List (List Char)) (l raw rest : List Char),
    (∀ t ∈ ts, t ≠ []) → firstTitleMatch ts l = some (raw, rest) →
      rest.length < l.length := by
  intro ts
  induction ts with
  | nil => intro l raw rest _ h; simp [firstTitleMatch] at h
  | cons t ts ih =>
      intro l raw rest hne h
      rw [firstTitleMatch] at h
      by_cases hm : ciPrefixMatch t l = true
      · rw [if_pos hm] at h
        have hlen := ciPrefixMatch_length t l hm
        have ht : t ≠ [] := hne t (List.mem_cons_self t ts)
        have ht1 : 1 ≤ t.length := by
          cases t with
          | nil => exact absurd rfl ht
          | cons a b => simp
        have : rest = l.drop t.length := by
          have h2 := congrArg (fun p => p.2) (Option.some.inj h)
          simpa using h2.symm
        subst this
        simp
        omega
      · rw [if_neg hm] at h
        exact ih l raw rest (fun u hu => hne u (List.mem_cons_of_mem _ hu)) h

theorem afterTitleSep_len : ∀ (l rest2 : List Char) (b : Bool),
    afterTitleSep l = some (rest2, b) → rest2.length < l.length := by
  intro l rest2 b h
  unfold afterTitleSep at h
  have hw := takeWhile_dropWhile_length isPySpace l
  by_cases hc : (l.dropWhile isPySpace).head? = some ':'
  · rw [if_pos hc] at h
    have h1 := congrArg (fun p => p.1) (Option.some.inj h)
    simp at h1
    cases hd : l.dropWhile isPySpace with
    | nil => rw [hd] at hc; simp at hc
    | cons c l2 =>
        have hl2 : (l.dropWhile isPySpace).tail = l2 := by rw [hd]; rfl
        have hlen : l2.length + 1 = (l.dropWhile isPySpace).length := by
          rw [hd]; simp
        have hw2 := takeWhile_dropWhile_length isPySpace l2
        rw [← h1, hl2]
        omega
  · rw [if_neg hc] at h
    exact absurd h (by simp)

theorem matchSectionAt_len : ∀ (l raw rest2 : List Char) (b : Bool),
    matchSectionAt l = some (raw, rest2, b) → rest2.length < l.length := by
  intro l raw rest2 b h
  unfold matchSectionAt at h
  obtain ⟨pr, hf, h2⟩ := Option.bind_eq_some.mp h
  obtain ⟨rb, ha, hrb⟩ := Option.map_eq_some'.mp h2
  have hne : ∀ t ∈ sectionTitles.map String.data, t ≠ [] := by decide
  have hl1 : pr.2.length < l.length :=
    firstTitleMatch_len _ l pr.1 pr.2 hne (by rw [hf])
  have hl2 : rb.1.length < pr.2.length :=
    afterTitleSep_len pr.2 rb.1 rb.2 (by rw [ha])
  have : rest2 = rb.1 := by
    have := congrArg (fun t => t.2.1) hrb
    simpa using this.symm
  subst this
  omega

/-- The `finditer` scan of `_ensure_required_sections`: walk the text,
trying the section regex at every line-start position (position 0, or right
after a `'\n'`, including a newline consumed by a previous match's `\s*`).
Returns the text before the first match and, per match, the raw title and
the text up to the next match. -/
def scanSections : List Char → Bool → List Char × List (List Char × List Char)
  | [], _ => ([], [])
  | c :: rest, atStart =>
      if atStart then
        if h : (matchSectionAt (c :: rest)).isSome then
          let m := (matchSectionAt (c :: rest)).get h
          let next := scanSections m.2.1 m.2.2
          ([], (m.1, next.1) :: next.2)
        else
          let next := scanSections rest (c = '\n')
          (c :: next.1, next.2)
      else
        let next := scanSections rest (c = '\n')
        (c :: next.1, next.2)
termination_by l _ => l.length
decreasing_by
  · obtain ⟨m0, hm⟩ := Option.isSome_iff_exists.mp h
    have := matchSectionAt_len (c :: rest) m0.1 m0.2.1 m0.2.2 (by rw [hm])
    simp [hm]
    simp at this
    omega
  · simp
  · simp

/-- `canonical_titles.get(title_raw.lower(), title_raw)`: recover the
canonically-cased section title from the raw (case-insensitive) match. -/
def canonicalTitle (raw : List Char) : String :=
  match sectionTitles.find? (fun t => t.data.map pyLowerChar == raw.map pyLowerChar) with
  | some t => t
  | none => ⟨raw⟩

/-- `AnswerService._ensure_required_sections`: if no section header occurs,
return the stripped text unchanged; otherwise reassemble preamble (if
nonempty) and `"<canonical title>:\n<content>"` for each section whose
stripped content is nonempty, joined by blank lines, and strip the result. -/
def ensure_required_sections (text : String) : String :=
  let nt := pyStripL text.data
  let scan := scanSections nt true
  if scan.2.isEmpty then ⟨nt⟩
  else
    let preParts : List String :=
      if (pyStripL scan.1).isEmpty then [] else [⟨pyStripL scan.1⟩]
    let secParts : List String := scan.2.filterMap (fun rc =>
      if (pyStripL rc.2).isEmpty then none
      else some (canonicalTitle rc.1 ++ ":\n" ++ (⟨pyStripL rc.2⟩ : String)))
    pyStrip (joinSep "\n\n" (preParts ++ secParts))

/-!
### `KnowledgeBase` and `build_context_snippets` (`src/rag.py`)

A knowledge-base row is a row of the loaded CSV dataframe.  A cell is
`Option String`: `none` models a pandas `NaN` (missing cell), `some s` the
string rendering of the cell.  `fillna("")` (used when building
`search_text`) maps `none` to `""`; an f-string rendering maps it to pandas'
`"nan"`; the formatter's explicit `pd.isna` check on `id` maps it to `""`.
-/

structure Row where
  id : Option String
  topic : Option String
  question : Option String
  answer : Option String
  law_refs : Option String
  url : Option String
deriving DecidableEq, Repr

def defaultRow : Row := ⟨none, none, none, none, none, none⟩

/-- f-string rendering of a cell (`NaN` prints as `nan`). -/
def cellShow (o : Option String) : String :=
  match o with
  | some s => s
  | none => "nan"

/-- `row_id = "" if pd.isna(row_id) else str(row_id)`. -/
def idShow (o : Option String) : String :=
  match o with
  | some s => s
  | none => ""

/-- `search_text` built in `KnowledgeBase.__init__`:
`topic.fillna("") + " | " + question.fillna("") + " | " + answer.fillna("")`. -/
def searchText (r : Row) : String :=
  r.topic.getD "" ++ " | " ++ r.question.getD "" ++ " | " ++ r.answer.getD ""

structure KnowledgeBase where
  rows : List Row
deriving DecidableEq

structure ScoredRow where
  row : Row
  score : Int
deriving DecidableEq, Repr

/-- Python `int(x)` on a (nonnegative-or-not) float score: truncation
toward zero. -/
def pyInt (x : ℚ) : Int :=
  if 0 ≤ x then ⌊x⌋ else ⌈x⌉

/-- The `(index, score)` table `process.extract` ranks: one similarity
score per corpus entry, computed by the scorer (`fuzz.WRatio` in the
source) against `search_text`. -/
def scoreTable (scorer : String → String → ℚ) (q : String) (kb : KnowledgeBase) :
    List (Nat × ℚ) :=
  ((kb.rows.map searchText).enum).map (fun p => (p.1, scorer q p.2))

/-- Ranking order of `process.extract`: higher score first, ties in the
order of the choices (the original corpus order). -/
def rankRel (a b : Nat × ℚ) : Prop :=
  b.2 < a.2 ∨ (a.2 = b.2 ∧ a.1 ≤ b.1)

instance : DecidableRel rankRel := fun a b => by
  unfold rankRel; infer_instance

instance : IsTotal (Nat × ℚ) rankRel := ⟨by
  intro a b
  unfold rankRel
  rcases lt_trichotomy a.2 b.2 with h | h | h
  · exact Or.inr (Or.inl h)
  · rcases Nat.le_total a.1 b.1 with hn | hn
    · exact Or.inl (Or.inr ⟨h, hn⟩)
    · exact Or.inr (Or.inr ⟨h.symm, hn⟩)
  · exact Or.inl (Or.inl h)⟩

instance : IsTrans (Nat × ℚ) rankRel := ⟨by
  intro a b c hab hbc
  unfold rankRel at *
  rcases hab with h1 | ⟨h1, h1n⟩ <;> rcases hbc with h2 | ⟨h2, h2n⟩
  · exact Or.inl (h2.trans h1)
  · exact Or.inl (h2 ▸ h1)
  · exact Or.inl (h1 ▸ h2)
  · exact Or.inr ⟨h1.trans h2, h1n.trans h2n⟩⟩

/-- `process.extract(query, choices, scorer, limit=topK)`, modelled from
its documented contract: the score table sorted by `rankRel` (score
descending, stable on ties), truncated to the first `topK` entries. -/
def rankedPairs (kb : KnowledgeBase) (scorer : String → String → ℚ)
    (q : String) (topK : Nat) : List (Nat × ℚ) :=
  ((scoreTable scorer q kb).insertionSort rankRel).take topK

/-- `KnowledgeBase.query`: empty or whitespace-only questions short-circuit
to `[]`; otherwise each extracted `(index, score)` pair becomes the row at
that index annotated with `int(score)`.  (`defaultRow` is never reached:
extracted indices index the corpus.) -/
def query (kb : KnowledgeBase) (scorer : String → String → ℚ)
    (q : String) (topK : Nat) : List ScoredRow :=
  if q = "" ∨ pyStrip q = "" then []
  else
    (rankedPairs kb scorer q topK).map
      (fun p => { row := kb.rows.getD p.1 defaultRow, score := pyInt p.2 })

/-- One `part` of `build_context_snippets` (the f-string block per row). -/
def rowBlock (r : ScoredRow) : String :=
  "[ID:" ++ idShow r.row.id ++ "] Тема: " ++ cellShow r.row.topic ++ "\n" ++
  "Вопрос: " ++ cellShow r.row.question ++ "\n" ++
  "Ответ: " ++ cellShow r.row.answer ++ "\n" ++
  "Правовые ссылки: " ++ cellShow r.row.law_refs ++ "\n" ++
  "Источник: " ++ cellShow r.row.url ++ "\n" ++
  "(релевантность: " ++ toString r.score ++ ")\n"

/-- `build_context_snippets(rows)`: one block per row, joined by the fixed
separator line. -/
def build_context_snippets (rows : List ScoredRow) : String :=
  joinSep "\n---\n" (rows.map rowBlock)

/-!
### `AnswerService.generate_answer` (`src/services/answer_service.py`)

The remote chat-completion call is the only effect; it is modelled as a
function from the model name and message list to `Except`: `.ok content`
is a successful response body (`response.choices[0].message.content`),
`.error e` is `str(exc)` for the exception raised by the call (the
`except Exception` arm).  The fixed `temperature=0.2` float is part of the
call, not of the result, and is not modelled.
-/

structure Message where
  role : String
  content : String
deriving DecidableEq, Repr

structure AnswerResult where
  text : String
  top_score : Int
  status : String
deriving DecidableEq, Repr

/-- The `messages` list `generate_answer` sends: the system prompt and one
user message holding the question and the rendered context (or the fixed
"no context" sentinel when retrieval found nothing). -/
def answerMessages (kb : KnowledgeBase) (scorer : String → String → ℚ)
    (systemPrompt : String) (ragTopK : Nat) (userQuestion : String) : List Message :=
  let hits := query kb scorer userQuestion ragTopK
  let contextText :=
    if hits.isEmpty then "Контекст из базы знаний не найден."
    else build_context_snippets hits
  [⟨"system", systemPrompt⟩,
   ⟨"user", "Вопрос пользователя:\n" ++ userQuestion ++
      "\n\nКонтекст (из базы знаний):\n" ++ contextText⟩]

/-- `AnswerService.generate_answer`: retrieve, remember the top score,
build the messages, call the model; on success strip markdown and
normalize sections with status `"ok"`, on any exception return the fixed
apology with the error detail and status `"error"`.  The `top_score`
computed before the call is returned unchanged on both paths. -/
def generate_answer (kb : KnowledgeBase) (scorer : String → String → ℚ)
    (modelName systemPrompt : String) (ragTopK : Nat) (userQuestion : String)
    (completion : String → List Message → Except String String) : AnswerResult :=
  let hits := query kb scorer userQuestion ragTopK
  let top_score := match hits with | [] => 0 | h :: _ => h.score
  match completion modelName (answerMessages kb scorer systemPrompt ragTopK userQuestion) with
  | .ok content =>
      { text := ensure_required_sections (strip_markdown (pyStrip content))
        top_score := top_score
        status := "ok" }
  | .error exc =>
      { text := "Извини, сейчас не удалось получить ответ от модели.\n" ++
          "Техническая ошибка: " ++ exc
        top_score := top_score
        status := "error" }

/-- Modelled from the spec: the history-aware variant of
`AnswerService.generate_answer` that `src/bot.py` (`any_text`) and
`src/tests/test_answer_service.py` call with `history=`/`history_limit=`
keyword arguments is absent from `src/services/answer_service.py`; this is
its history-truncation step — keep the last `historyLimit` turns when the
limit is positive (`history[-history_limit:]`), drop all history at zero,
pass the history through unchanged when negative. -/
def trimHistory (history : List Message) (historyLimit : Int) : List Message :=
  if 0 < historyLimit then history.drop (history.length - historyLimit.toNat)
  else if historyLimit = 0 then []
  else history

/-- Modelled from the spec: the message sequence the history-aware composer
sends — the system message, then the truncated prior turns in original
order, then the new user message (question plus rendered context). -/
def composeMessages (systemPrompt : String) (history : List Message)
    (historyLimit : Int) (userContent : String) : List Message :=
  ⟨"system", systemPrompt⟩ :: (trimHistory history historyLimit ++ [⟨"user", userContent⟩])

/-!
### `validate_records` (`src/models/knowledge.py`)

A raw record is an untyped map; the fields the duplicate-id claim exercises
are `id`, `topic`, `question`, `answer`.  A field value is `none` (absent /
JSON null) or a string or an integer (pydantic's accepted shapes; the
float-with-integral-value coercion of `_ensure_id` collapses to the integer
case and floats are otherwise not representable in this embedding).  The
optional and list-valued fields of `KnowledgeRecord` always validate when
absent (they default), do not interact with the id-uniqueness check, and
are omitted.  Pydantic's `model_validate` aggregates per-field errors into
one `ValidationError` text; the embedding reports the first failing
field's message, which no claim inspects.
-/

inductive RawValue where
  | str (s : String)
  | int (n : Int)
deriving DecidableEq, Repr

structure RawRecord where
  id : Option RawValue
  topic : Option RawValue
  question : Option RawValue
  answer : Option RawValue
deriving DecidableEq, Repr

/-- `KnowledgeRecord._ensure_id`: `None` is rejected, numbers are
stringified, strings are stripped and must be nonempty. -/
def ensure_id : Option RawValue → Except String String
  | none => .error "knowledge record id is required"
  | some v =>
      let s := match v with | .int n => toString n | .str s => s
      let normalized := pyStrip s
      if normalized = "" then .error "knowledge record id must not be empty"
      else .ok normalized

/-- `KnowledgeRecord._normalize_required_field` for `topic`, `question`,
`answer`: `None` is rejected, numbers are stringified, strings are
whitespace-normalized and must be nonempty. -/
def normalizeRequired (fieldName : String) : Option RawValue → Except String String
  | none => .error ("knowledge record " ++ fieldName ++ " is required")
  | some v =>
      let s := match v with | .int n => toString n | .str s => s
      let normalized := normalizeText s
      if normalized = "" then
        .error ("knowledge record " ++ fieldName ++ " must not be empty")
      else .ok normalized

/-- The validated fields of `KnowledgeRecord` this development needs. -/
structure KRecord where
  id : String
  topic : String
  question : String
  answer : String
deriving DecidableEq, Repr

/-- `KnowledgeRecord.model_validate` on one raw record. -/
def validateRecord (r : RawRecord) : Except String KRecord := do
  let id ← ensure_id r.id
  let topic ← normalizeRequired "topic" r.topic
  let question ← normalizeRequired "question" r.question
  let answer ← normalizeRequired "answer" r.answer
  pure ⟨id, topic, question, answer⟩

/-- The loop body of `validate_records`: validate each record (wrapping a
failure with its 1-based index), reject an `id` already seen, and collect
the validated records. -/
def validateAux (seen : List String) (idx : Nat) :
    List RawRecord → Except String (List KRecord)
  | [] => .ok []
  | r :: rest =>
      match validateRecord r with
      | .error e =>
          .error ("Invalid knowledge record at index " ++ toString idx ++ ": " ++ e)
      | .ok rec =>
          if rec.id ∈ seen then
            .error ("Duplicate knowledge record id detected: " ++ rec.id)
          else
            match validateAux (rec.id :: seen) (idx + 1) rest with
            | .error e => .error e
            | .ok recs => .ok (rec :: recs)

/-- `validate_records(data)`. -/
def validate_records (data : List RawRecord) : Except String (List KRecord) :=
  validateAux [] 1 data

/-! ### Supporting lemmas -/

theorem pyStripL_all_space (l : List Char) (h : ∀ c ∈ l, isPySpace c) :
    pyStripL l = [] := by
  unfold pyStripL
  have h1 : l.dropWhile isPySpace = [] := List.dropWhile_eq_nil_iff.mpr h
  rw [h1]
  simp

theorem validateAux_ok :
    ∀ (data : List RawRecord) (seen : List String) (idx : Nat) (recs : List KRecord),
      validateAux seen idx data = .ok recs →
        (recs.map KRecord.id).Nodup ∧ ∀ rec ∈ recs, rec.id ∉ seen := by
  intro data
  induction data with
  | nil =>
      intro seen idx recs h
      rw [validateAux] at h
      have hrecs : recs = [] := (Except.ok.inj h).symm
      subst hrecs
      simp
  | cons r rest ih =>
      intro seen idx recs h
      rw [validateAux] at h
      split at h
      · exact absurd h (by simp)
      · rename_i rec hv
        by_cases hs : rec.id ∈ seen
        · rw [if_pos hs] at h
          exact absurd h (by simp)
        · rw [if_neg hs] at h
          split at h
          · exact absurd h (by simp)
          · rename_i recs2 ha
            have hrecs : recs = rec :: recs2 := (Except.ok.inj h).symm
            subst hrecs
            obtain ⟨hnd, hseen⟩ := ih (rec.id :: seen) (idx + 1) recs2 ha
            constructor
            · simp only [List.map_cons, List.nodup_cons]
              refine ⟨?_, hnd⟩
              intro hmem
              obtain ⟨rec2, hrec2, hid⟩ := List.mem_map.mp hmem
              exact hseen rec2 hrec2 (by simp [hid])
            · intro rec2 hrec2
              rcases List.mem_cons.mp hrec2 with heq | hmem
              · subst heq; exact hs
              · intro hcontra
                exact hseen rec2 hmem (List.mem_cons_of_mem _ hcontra)

/-! ### Claims -/

/-- C1: for every question, if the remote completion call fails with any
exception, `generate_answer` returns (rather than propagates) a result with
`status = "error"` whose text contains both the fixed apology token
(`"Извини"`) and the literal error detail. -/
theorem claim_C1_completion_failure_contained :
    ∀ (kb : KnowledgeBase) (scorer : String → String → ℚ)
      (modelName sysPrompt : String) (k : Nat) (q e : String)
      (completion : String → List Message → Except String String),
      completion modelName (answerMessages kb scorer sysPrompt k q) = .error e →
      (generate_answer kb scorer modelName sysPrompt k q completion).status = "error" ∧
      (generate_answer kb scorer modelName sysPrompt k q completion).text =
        "Извини, сейчас не удалось получить ответ от модели.\n" ++
          "Техническая ошибка: " ++ e ∧
      "Извини".data <:+:
        (generate_answer kb scorer modelName sysPrompt k q completion).text.data ∧
      e.data <:+:
        (generate_answer kb scorer modelName sysPrompt k q completion).text.data := by
  intro kb scorer modelName sysPrompt k q e completion hc
  have htext : (generate_answer kb scorer modelName sysPrompt k q completion).text =
      "Извини, сейчас не удалось получить ответ от модели.\n" ++
        "Техническая ошибка: " ++ e := by
    simp [generate_answer, hc]
  refine ⟨by simp [generate_answer, hc], htext, ?_, ?_⟩
  · rw [htext]
    refine List.IsPrefix.isInfix ⟨(", сейчас не удалось получить ответ от модели.\n" ++
      "Техническая ошибка: ").data ++ e.data, ?_⟩
    have h2 : "Извини".data ++ (", сейчас не удалось получить ответ от модели.\n" ++
        "Техническая ошибка: ").data =
        ("Извини, сейчас не удалось получить ответ от модели.\n" ++
          "Техническая ошибка: ").data := by decide
    calc "Извини".data ++ ((", сейчас не удалось получить ответ от модели.\n" ++
            "Техническая ошибка: ").data ++ e.data)
        = ("Извини".data ++ (", сейчас не удалось получить ответ от модели.\n" ++
            "Техническая ошибка: ").data) ++ e.data := by rw [List.append_assoc]
      _ = ("Извини, сейчас не удалось получить ответ от модели.\n" ++
            "Техническая ошибка: ").data ++ e.data := by rw [h2]
      _ = ("Извини, сейчас не удалось получить ответ от модели.\n" ++
            "Техническая ошибка: " ++ e).data := rfl
  · rw [htext]
    exact List.IsSuffix.isInfix
      ⟨("Извини, сейчас не удалось получить ответ от модели.\n" ++
        "Техническая ошибка: ").data, rfl⟩

theorem claim_C1_completion_failure_contained_witness :
    (generate_answer ⟨[]⟩ (fun _ _ => 0) "gpt-test" "Системное сообщение" 3 "Вопрос"
        (fun _ _ => .error "boom")).status = "error" ∧
    (generate_answer ⟨[]⟩ (fun _ _ => 0) "gpt-test" "Системное сообщение" 3 "Вопрос"
        (fun _ _ => .error "boom")).text =
      "Извини, сейчас не удалось получить ответ от модели.\n" ++
        "Техническая ошибка: " ++ "boom" ∧
    "Извини".data <:+: (generate_answer ⟨[]⟩ (fun _ _ => 0) "gpt-test"
        "Системное сообщение" 3 "Вопрос" (fun _ _ => .error "boom")).text.data ∧
    "boom".data <:+: (generate_answer ⟨[]⟩ (fun _ _ => 0) "gpt-test"
        "Системное сообщение" 3 "Вопрос" (fun _ _ => .error "boom")).text.data :=
  claim_C1_completion_failure_contained ⟨[]⟩ (fun _ _ => 0) "gpt-test"
    "Системное сообщение" 3 "Вопрос" "boom" (fun _ _ => .error "boom") rfl

/-- C10: when retrieval returns at least one hit and the completion call
then fails, `generate_answer` still returns `top_score` equal to the first
hit's score alongside status `"error"`: the retrieval score is computed
before the model call and preserved unchanged on the error path. -/
theorem claim_C10_top_score_preserved_on_error :
    ∀ (kb : KnowledgeBase) (scorer : String → String → ℚ)
      (modelName sysPrompt : String) (k : Nat) (q e : String)
      (completion : String → List Message → Except String String)
      (h : ScoredRow) (hs : List ScoredRow),
      query kb scorer q k = h :: hs →
      completion modelName (answerMessages kb scorer sysPrompt k q) = .error e →
      (generate_answer kb scorer modelName sysPrompt k q completion).top_score = h.score ∧
      (generate_answer kb scorer modelName sysPrompt k q completion).status = "error" := by
  intro kb scorer modelName sysPrompt k q e completion h hs hq hc
  constructor <;> simp [generate_answer, hq, hc]

def wRow : Row :=
  ⟨some "1", some "Тема", some "Вопрос", some "Ответ", some "Закон", some "http://a"⟩

theorem claim_C10_top_score_preserved_on_error_witness :
    query ⟨[wRow]⟩ (fun _ _ => 50) "аренда" 3 = [⟨wRow, 50⟩] ∧
    (generate_answer ⟨[wRow]⟩ (fun _ _ => 50) "gpt-test" "Системное сообщение" 3
        "аренда" (fun _ _ => .error "boom")).top_score = 50 ∧
    (generate_answer ⟨[wRow]⟩ (fun _ _ => 50) "gpt-test" "Системное сообщение" 3
        "аренда" (fun _ _ => .error "boom")).status = "error" := by
  have hq : query ⟨[wRow]⟩ (fun _ _ => 50) "аренда" 3 = [⟨wRow, 50⟩] := by decide
  exact ⟨hq, claim_C10_top_score_preserved_on_error ⟨[wRow]⟩ (fun _ _ => 50) "gpt-test"
    "Системное сообщение" 3 "аренда" "boom" (fun _ _ => .error "boom")
    ⟨wRow, 50⟩ [] hq rfl⟩

/-- C5: for every corpus and every `topK`, `KnowledgeBase.query` applied to
an empty or whitespace-only query string returns the empty sequence (the
function is total, so nothing is raised). -/
theorem claim_C5_blank_query_noop :
    ∀ (kb : KnowledgeBase) (scorer : String → String → ℚ) (topK : Nat) (q : String),
      (q = "" ∨ ∀ c ∈ q.data, isPySpace c) →
      query kb scorer q topK = [] := by
  intro kb scorer topK q hq
  rcases hq with hq | hq
  · simp [query, hq]
  · have hstrip : pyStrip q = "" := by
      unfold pyStrip
      rw [pyStripL_all_space q.data hq]
    simp [query, hstrip]

theorem claim_C5_blank_query_noop_witness :
    (" \t\n" = "" ∨ ∀ c ∈ (" \t\n" : String).data, isPySpace c) ∧
    query ⟨[wRow]⟩ (fun _ _ => 50) " \t\n" 3 = [] :=
  ⟨Or.inr (by decide),
   claim_C5_blank_query_noop ⟨[wRow]⟩ (fun _ _ => 50) 3 " \t\n" (Or.inr (by decide))⟩

/-- C7 counterexample: the markdown stripper is not idempotent, and one
application can leave a residual `**` pair.  On `"*#*a*#*"` the heading
pass glues the stars into `"**a**"`, which a second application reduces to
`"a"`. -/
theorem claim_C7_counterexample :
    strip_markdown "*#*a*#*" = "**a**" ∧
    strip_markdown (strip_markdown "*#*a*#*") = "a" ∧
    strip_markdown (strip_markdown "*#*a*#*") ≠ strip_markdown "*#*a*#*" := by
  have h1 : strip_markdown "*#*a*#*" = "**a**" := by
    simp [strip_markdown, boldSub, hashSub, underscoreSub, findBoldClose, isPySpace]
  have h2 : strip_markdown "**a**" = "a" := by
    simp [strip_markdown, boldSub, hashSub, underscoreSub, findBoldClose, isPySpace]
  refine ⟨h1, by rw [h1, h2], ?_⟩
  rw [h1, h2]
  decide

/-- C7 (amended): one application of the markdown stripper leaves no `#`
character at all (in particular no leading `#` sequences); idempotence and
the absence of residual `**` pairs do not hold in general (see the
counterexample). -/
theorem claim_C7_stripper_no_hash_left :
    ∀ s : String, '#' ∉ (strip_markdown s).data := by
  intro s hmem
  exact hashSub_no_hash _ (mem_underscoreSub _ _ hmem)

theorem claim_C7_stripper_no_hash_left_witness :
    '#' ∉ (strip_markdown "## x # y").data :=
  claim_C7_stripper_no_hash_left "## x # y"

/-- C8: the underscore pass of `_strip_markdown` is the naive
`re.sub(r"_([^_]+)_", r"\1", ...)` rule, so the identifier
`snake_case_name` is mangled to `snakecasename` — the code contradicts the
boundary-aware behaviour the claim (and the spec, which calls the naive
rule the earlier bug) requires. -/
theorem claim_C8_naive_underscore_eval :
    strip_markdown "snake_case_name" = "snakecasename" ∧
    ("snakecasename" : String) ≠ "snake_case_name" :=
  ⟨by simp [strip_markdown, boldSub, hashSub, underscoreSub, findBoldClose, isPySpace],
   by decide⟩

/-- C9 counterexample: `re.sub(r"#+\s*", "", text)` has no line anchor, so
a `#` in the middle of a line is removed as well: `"a#b"` becomes `"ab"`,
where the claim says it must stay unchanged. -/
theorem claim_C9_counterexample :
    strip_markdown "a#b" = "ab" ∧ ("ab" : String) ≠ "a#b" :=
  ⟨by simp [strip_markdown, boldSub, hashSub, underscoreSub, findBoldClose, isPySpace],
   by decide⟩

/-- C9 (amended): the heading pass removes every run of `#` characters
(with any following whitespace) wherever it occurs in the text, not only at
line starts: no `#` survives the pass, and `"a # b\n# c"` becomes
`"a b\nc"`. -/
theorem claim_C9_hash_stripped_everywhere :
    (∀ s : String, '#' ∉ hashSub s.data) ∧
    strip_markdown "a # b\n# c" = "a b\nc" :=
  ⟨fun s => hashSub_no_hash s.data,
   by simp [strip_markdown, boldSub, hashSub, underscoreSub, findBoldClose, isPySpace]⟩

theorem claim_C9_hash_stripped_everywhere_witness :
    '#' ∉ hashSub ("x#y" : String).data :=
  claim_C9_hash_stripped_everywhere.1 "x#y"

/-- C2: the (spec-modelled) history-aware composer sends, for a 6-turn
history with limit 4, exactly the last 4 turns in original order between
the system message and the new user message; a positive limit keeps a
suffix of the history of length `min limit length`, limit 0 drops all
history, and a negative limit passes the history through unmodified.  (The
caller's list is trivially unmodified: the embedding is pure.) -/
theorem claim_C2_history_window :
    (∀ (t1 t2 t3 t4 t5 t6 : Message) (sys u : String),
        composeMessages sys [t1, t2, t3, t4, t5, t6] 4 u =
          ⟨"system", sys⟩ :: ([t3, t4, t5, t6] ++ [⟨"user", u⟩])) ∧
    (∀ (history : List Message) (limit : Int), 0 < limit →
        trimHistory history limit <:+ history ∧
        (trimHistory history limit).length = min limit.toNat history.length) ∧
    (∀ history : List Message, trimHistory history 0 = []) ∧
    (∀ (history : List Message) (limit : Int), limit < 0 →
        trimHistory history limit = history) := by
  refine ⟨?_, ?_, ?_, ?_⟩
  · intro t1 t2 t3 t4 t5 t6 sys u
    simp [composeMessages, trimHistory]
  · intro history limit hpos
    unfold trimHistory
    rw [if_pos hpos]
    refine ⟨List.drop_suffix _ _, ?_⟩
    simp [List.length_drop]
    omega
  · intro history
    simp [trimHistory]
  · intro history limit hneg
    unfold trimHistory
    rw [if_neg (by omega), if_neg (by omega)]

theorem claim_C2_history_window_witness :
    composeMessages "s"
        [⟨"user", "q1"⟩, ⟨"assistant", "a1"⟩, ⟨"user", "q2"⟩,
         ⟨"assistant", "a2"⟩, ⟨"user", "q3"⟩, ⟨"assistant", "a3"⟩] 4 "u" =
      ⟨"system", "s"⟩ :: ([⟨"user", "q2"⟩, ⟨"assistant", "a2"⟩, ⟨"user", "q3"⟩,
        ⟨"assistant", "a3"⟩] ++ [⟨"user", "u"⟩]) ∧
    (0 < (2 : Int)) ∧
    trimHistory [⟨"user", "q1"⟩] 2 <:+ [⟨"user", "q1"⟩] ∧
    (trimHistory [⟨"user", "q1"⟩] 2).length = min (Int.toNat 2) 1 ∧
    trimHistory [⟨"user", "q1"⟩] 0 = [] ∧
    ((-1 : Int) < 0) ∧
    trimHistory [⟨"user", "q1"⟩] (-1) = [⟨"user", "q1"⟩] := by
  have h2 := claim_C2_history_window.2.1 [⟨"user", "q1"⟩] 2 (by decide)
  exact ⟨claim_C2_history_window.1 _ _ _ _ _ _ "s" "u", by decide,
    h2.1, by simpa using h2.2,
    claim_C2_history_window.2.2.1 [⟨"user", "q1"⟩], by decide,
    claim_C2_history_window.2.2.2 [⟨"user", "q1"⟩] (-1) (by decide)⟩

/-- C3: a batch with a repeated id can never produce a corpus — a
successful `validate_records` has pairwise-distinct ids (and, `Except`
being all-or-nothing, failure returns no partial corpus) — and on a batch
of two individually valid records sharing an id the error names the
duplicate id. -/
theorem claim_C3_duplicate_id_rejected :
    (∀ (data : List RawRecord) (recs : List KRecord),
        validate_records data = .ok recs → (recs.map KRecord.id).Nodup) ∧
    (∀ (r1 r2 : RawRecord) (k1 k2 : KRecord),
        validateRecord r1 = .ok k1 → validateRecord r2 = .ok k2 →
        k1.id = k2.id →
        validate_records [r1, r2] =
          .error ("Duplicate knowledge record id detected: " ++ k2.id)) := by
  constructor
  · intro data recs h
    exact (validateAux_ok data [] 1 recs h).1
  · intro r1 r2 k1 k2 h1 h2 hid
    unfold validate_records
    rw [validateAux]
    simp only [h1]
    rw [if_neg (by simp)]
    rw [validateAux]
    simp only [h2]
    rw [if_pos (by simp [← hid])]

def wRawRecord : RawRecord :=
  ⟨some (.str "1"), some (.str "Тема"), some (.str "Вопрос"), some (.str "Ответ")⟩

theorem claim_C3_duplicate_id_rejected_witness :
    validateRecord wRawRecord = .ok ⟨"1", "Тема", "Вопрос", "Ответ"⟩ ∧
    validate_records [wRawRecord, wRawRecord] =
      .error ("Duplicate knowledge record id detected: " ++ "1") := by
  have hv : validateRecord wRawRecord = .ok ⟨"1", "Тема", "Вопрос", "Ответ"⟩ := by
    simp [validateRecord, wRawRecord, ensure_id, normalizeRequired, normalizeText,
      pyStrip, pyStripL, collapseWs, isPySpace]
    rfl
  exact ⟨hv, claim_C3_duplicate_id_rejected.2 wRawRecord wRawRecord _ _ hv hv rfl⟩

theorem joinSep_cons_cons (sep a b : String) (bs : List String) :
    joinSep sep (a :: b :: bs) = a ++ sep ++ joinSep sep (b :: bs) := rfl

theorem mem_joinSep_infix (sep : String) :
    ∀ (parts : List String) (p : String), p ∈ parts →
      p.data <:+: (joinSep sep parts).data := by
  intro parts
  induction parts with
  | nil => simp
  | cons a rest ih =>
      intro p hp
      rcases List.mem_cons.mp hp with heq | hmem
      · subst heq
        cases rest with
        | nil => exact List.infix_rfl
        | cons b bs =>
            refine List.IsPrefix.isInfix ⟨(sep ++ joinSep sep (b :: bs)).data, ?_⟩
            rw [joinSep_cons_cons]
            show p.data ++ (sep.data ++ (joinSep sep (b :: bs)).data) =
              (p.data ++ sep.data) ++ (joinSep sep (b :: bs)).data
            rw [List.append_assoc]
      · cases rest with
        | nil => simp at hmem
        | cons b bs =>
            refine (ih p hmem).trans (List.IsSuffix.isInfix ⟨(a ++ sep).data, ?_⟩)
            rw [joinSep_cons_cons]
            rfl

theorem infix_append_left (x y : String) : x.data <:+: (x ++ y).data :=
  ⟨[], y.data, by simp⟩

theorem infix_append_right (x y : String) (t : List Char) (h : t <:+: y.data) :
    t <:+: (x ++ y).data :=
  h.trans (List.IsSuffix.isInfix ⟨x.data, rfl⟩)

/-- The six labelled segments of a context block, as the f-string emits
them. -/
def seg1 (r : ScoredRow) : String :=
  "[ID:" ++ idShow r.row.id ++ "] Тема: " ++ cellShow r.row.topic ++ "\n"

def seg2 (r : ScoredRow) : String :=
  "Вопрос: " ++ cellShow r.row.question ++ "\n"

def seg3 (r : ScoredRow) : String :=
  "Ответ: " ++ cellShow r.row.answer ++ "\n"

def seg4 (r : ScoredRow) : String :=
  "Правовые ссылки: " ++ cellShow r.row.law_refs ++ "\n"

def seg5 (r : ScoredRow) : String :=
  "Источник: " ++ cellShow r.row.url ++ "\n"

def seg6 (r : ScoredRow) : String :=
  "(релевантность: " ++ toString r.score ++ ")\n"

theorem rowBlock_eq (r : ScoredRow) :
    rowBlock r = seg1 r ++ (seg2 r ++ (seg3 r ++ (seg4 r ++ (seg5 r ++ seg6 r)))) := by
  unfold rowBlock seg1 seg2 seg3 seg4 seg5 seg6
  simp only [String.append_assoc]

def wHit : ScoredRow := ⟨⟨some "1", some "T", some "Q", some "A", some "L", some "U"⟩, 95⟩

/-- C6 counterexample: on a concrete single hit the formatter emits exactly
the id/topic/question/answer/law_refs/url/score block — in particular it
contains no `-` character at all, so there is no bulleted rendering of
`steps` (nor the `-` placeholder for empty `steps`), no `docs` bullets and
no `law_refs_norm` rendering, contrary to the claim. -/
theorem claim_C6_counterexample :
    build_context_snippets [wHit] =
      "[ID:1] Тема: T\nВопрос: Q\nОтвет: A\nПравовые ссылки: L\nИсточник: U\n(релевантность: 95)\n" ∧
    ∀ c ∈ (build_context_snippets [wHit]).data, c ≠ '-' := by
  constructor
  · rfl
  · decide

/-- C6 (amended): the formatter produces one block per hit, joined by the
fixed `"\n---\n"` separator, and each hit's block carries the hit's id (as
`[ID:<id>]`) with its topic, its question, its answer, the raw `law_refs`
text, the source `url`, and the numeric relevance score; there is no
rendering of `steps`, `docs`, `law_refs_norm` or source titles — the CSV
rows have no such fields. -/
theorem claim_C6_formatter_fields :
    ∀ (rows : List ScoredRow) (sr : ScoredRow), sr ∈ rows →
      (seg1 sr).data <:+: (build_context_snippets rows).data ∧
      (seg2 sr).data <:+: (build_context_snippets rows).data ∧
      (seg3 sr).data <:+: (build_context_snippets rows).data ∧
      (seg4 sr).data <:+: (build_context_snippets rows).data ∧
      (seg5 sr).data <:+: (build_context_snippets rows).data ∧
      (seg6 sr).data <:+: (build_context_snippets rows).data := by
  intro rows sr hmem
  have hb : (rowBlock sr).data <:+: (build_context_snippets rows).data :=
    mem_joinSep_infix "\n---\n" (rows.map rowBlock) (rowBlock sr)
      (List.mem_map_of_mem rowBlock hmem)
  have he := rowBlock_eq sr
  refine ⟨?_, ?_, ?_, ?_, ?_, ?_⟩
  · exact (he ▸ infix_append_left (seg1 sr) _ : (seg1 sr).data <:+: (rowBlock sr).data).trans hb
  · exact (he ▸ infix_append_right _ _ _ (infix_append_left (seg2 sr) _)).trans hb
  · exact (he ▸ infix_append_right _ _ _ (infix_append_right _ _ _
      (infix_append_left (seg3 sr) _))).trans hb
  · exact (he ▸ infix_append_right _ _ _ (infix_append_right _ _ _
      (infix_append_right _ _ _ (infix_append_left (seg4 sr) _)))).trans hb
  · exact (he ▸ infix_append_right _ _ _ (infix_append_right _ _ _
      (infix_append_right _ _ _ (infix_append_right _ _ _
        (infix_append_left (seg5 sr) _))))).trans hb
  · exact (he ▸ infix_append_right _ _ _ (infix_append_right _ _ _
      (infix_append_right _ _ _ (infix_append_right _ _ _
        (infix_append_right _ _ _ List.infix_rfl))))).trans hb

theorem claim_C6_formatter_fields_witness :
    (seg2 wHit).data <:+: (build_context_snippets [wHit]).data :=
  (claim_C6_formatter_fields [wHit] wHit (List.mem_singleton.mpr rfl)).2.1

theorem pyInt_bounds (x : ℚ) (h0 : 0 ≤ x) (h100 : x ≤ 100) :
    0 ≤ pyInt x ∧ pyInt x ≤ 100 := by
  unfold pyInt
  rw [if_pos h0]
  constructor
  · exact Int.le_floor.mpr (by exact_mod_cast h0)
  · have := Int.floor_le_floor h100
    simpa using this

theorem pyInt_mono (x y : ℚ) (h0 : 0 ≤ x) (hxy : x ≤ y) :
    pyInt x ≤ pyInt y := by
  unfold pyInt
  rw [if_pos h0, if_pos (h0.trans hxy)]
  exact Int.floor_le_floor hxy

theorem mem_scoreTable_bounds (scorer : String → String → ℚ) (q : String)
    (kb : KnowledgeBase) (hb : ∀ a b, 0 ≤ scorer a b ∧ scorer a b ≤ 100) :
    ∀ p ∈ scoreTable scorer q kb, 0 ≤ p.2 ∧ p.2 ≤ 100 := by
  intro p hp
  unfold scoreTable at hp
  obtain ⟨is, hmem, heq⟩ := List.mem_map.mp hp
  rw [← heq]
  exact hb q is.2

theorem rankedPairs_mem_scoreTable (kb : KnowledgeBase)
    (scorer : String → String → ℚ) (q : String) (topK : Nat) :
    ∀ p ∈ rankedPairs kb scorer q topK, p ∈ scoreTable scorer q kb := by
  intro p hp
  unfold rankedPairs at hp
  have h1 : p ∈ (scoreTable scorer q kb).insertionSort rankRel :=
    (List.take_sublist _ _).mem hp
  exact (List.perm_insertionSort rankRel _).mem_iff.mp h1

theorem rankedPairs_pairwise (kb : KnowledgeBase)
    (scorer : String → String → ℚ) (q : String) (topK : Nat) :
    (rankedPairs kb scorer q topK).Pairwise rankRel := by
  unfold rankedPairs
  exact ((List.sorted_insertionSort rankRel _).sublist (List.take_sublist _ _))

theorem rankedPairs_fst_nodup (kb : KnowledgeBase)
    (scorer : String → String → ℚ) (q : String) (topK : Nat) :
    ((rankedPairs kb scorer q topK).map Prod.fst).Nodup := by
  have h1 : (scoreTable scorer q kb).map Prod.fst =
      List.range (kb.rows.map searchText).length := by
    unfold scoreTable
    rw [List.map_map]
    have : (Prod.fst ∘ fun p : Nat × String => (p.1, scorer q p.2)) = Prod.fst := rfl
    rw [this]
    exact List.enum_map_fst _
  have h2 : (((scoreTable scorer q kb).insertionSort rankRel).map Prod.fst).Nodup := by
    have hperm : List.Perm (((scoreTable scorer q kb).insertionSort rankRel).map Prod.fst)
        ((scoreTable scorer q kb).map Prod.fst) :=
      (List.perm_insertionSort rankRel _).map Prod.fst
    rw [hperm.nodup_iff, h1]
    exact List.nodup_range _
  unfold rankedPairs
  exact h2.sublist (List.Sublist.map Prod.fst (List.take_sublist _ _))

/-- C4: for a non-empty query and positive `topK`, `query` returns at most
`topK` scored records, each with an integer score in `[0, 100]` (given the
scorer's documented `[0, 100]` range), in descending score order; the
underlying extracted ranking is strictly ordered by descending score with
ties broken by ascending original corpus position (stable ties). -/
theorem claim_C4_query_ranked :
    ∀ (kb : KnowledgeBase) (scorer : String → String → ℚ) (q : String) (topK : Nat),
      q ≠ "" → 0 < topK →
      (∀ a b, 0 ≤ scorer a b ∧ scorer a b ≤ 100) →
      (query kb scorer q topK).length ≤ topK ∧
      (∀ sr ∈ query kb scorer q topK, 0 ≤ sr.score ∧ sr.score ≤ 100) ∧
      ((query kb scorer q topK).map ScoredRow.score).Sorted (fun a b => b ≤ a) ∧
      (rankedPairs kb scorer q topK).Pairwise
        (fun a b => b.2 < a.2 ∨ (a.2 = b.2 ∧ a.1 < b.1)) := by
  intro kb scorer q topK hq htopK hb
  have hstab : (rankedPairs kb scorer q topK).Pairwise
      (fun a b => b.2 < a.2 ∨ (a.2 = b.2 ∧ a.1 < b.1)) := by
    have hp1 := rankedPairs_pairwise kb scorer q topK
    have hp2 : (rankedPairs kb scorer q topK).Pairwise
        (fun a b : Nat × ℚ => a.1 ≠ b.1) := by
      have := rankedPairs_fst_nodup kb scorer q topK
      exact List.pairwise_map.mp this
    refine (hp1.and hp2).imp ?_
    intro a b hab
    rcases hab.1 with hlt | ⟨heq, hle⟩
    · exact Or.inl hlt
    · exact Or.inr ⟨heq, lt_of_le_of_ne hle hab.2⟩
  by_cases hempty : q = "" ∨ pyStrip q = ""
  · have hq0 : query kb scorer q topK = [] := by
      unfold query
      rw [if_pos hempty]
    refine ⟨by simp [hq0], by simp [hq0], by simp [hq0, List.Sorted], hstab⟩
  · have hq1 : query kb scorer q topK = (rankedPairs kb scorer q topK).map
        (fun p => { row := kb.rows.getD p.1 defaultRow, score := pyInt p.2 }) := by
      unfold query
      rw [if_neg hempty]
    refine ⟨?_, ?_, ?_, hstab⟩
    · rw [hq1]
      simp [rankedPairs]
    · intro sr hsr
      rw [hq1] at hsr
      obtain ⟨p, hp, heq⟩ := List.mem_map.mp hsr
      have hbounds := mem_scoreTable_bounds scorer q kb hb p
        (rankedPairs_mem_scoreTable kb scorer q topK p hp)
      rw [← heq]
      exact pyInt_bounds p.2 hbounds.1 hbounds.2
    · rw [hq1, List.map_map]
      have hp1 := rankedPairs_pairwise kb scorer q topK
      rw [List.Sorted, List.pairwise_map]
      refine hp1.imp_of_mem ?_
      intro a b ha hb2 hab
      have hba := mem_scoreTable_bounds scorer q kb hb b
        (rankedPairs_mem_scoreTable kb scorer q topK b hb2)
      show pyInt b.2 ≤ pyInt a.2
      rcases hab with hlt | ⟨heq, _⟩
      · exact pyInt_mono b.2 a.2 hba.1 hlt.le
      · rw [heq]

def wRow2 : Row :=
  ⟨some "2", some "Продажа", some "Как оформить продажу?", some "Ответ2",
   some "Закон2", some "http://b"⟩

theorem claim_C4_query_ranked_witness :
    ("аренда" : String) ≠ "" ∧ (0 < 2) ∧
    (query ⟨[wRow, wRow2]⟩ (fun _ _ => 50) "аренда" 2).length ≤ 2 ∧
    (rankedPairs ⟨[wRow, wRow2]⟩ (fun _ _ => 50) "аренда" 2).Pairwise
      (fun a b => b.2 < a.2 ∨ (a.2 = b.2 ∧ a.1 < b.1)) := by
  have h := claim_C4_query_ranked ⟨[wRow, wRow2]⟩ (fun _ _ => 50) "аренда" 2
    (by decide) (by decide) (fun a b => ⟨by norm_num, by norm_num⟩)
  exact ⟨by decide, by decide, h.1, h.2.2.2⟩

end LegalBot
